import Mathlib

/-!
Shallow embedding of `src/python-services/ast_analyzer.py` (an AST-based static
analyzer for Python source files) and proofs about the claims of its
specification.  Pure helpers of the analyzer are translated into executable
Lean functions; the mutable `ASTVisitor` becomes explicit state passing.

Python's `list(set(xs))` has implementation-defined iteration order (string
hashes are randomized per process), so every place the source converts a set
to a list is embedded parametrically: the analyzer takes a `setList` function,
and theorems that rely on set semantics assume `SetListOK setList`, which is
exactly the guarantee Python sets give (no duplicates, same membership).
-/

namespace ETLex

/-! ## Character and string helpers -/

/-- Python `\s` / `str.strip()` whitespace (ASCII range, which is all the
analyzed claims exercise). -/
def isWsChar (c : Char) : Bool :=
  c == ' ' || c == '\t' || c == '\n' || c == '\r' || c == '\x0b' || c == '\x0c'

/-- Python regex `\w` word character (ASCII range). -/
def isWordChar (c : Char) : Bool :=
  c.isAlpha || c.isDigit || c == '_'

/-- Case-insensitive character comparison. -/
def lowerEq (a b : Char) : Bool := a.toLower == b.toLower

/-- Case-insensitive test that `needle` starts the list `hay`. -/
def ciStarts : List Char → List Char → Bool
  | [], _ => true
  | _ :: _, [] => false
  | c :: cs, h :: hs => lowerEq c h && ciStarts cs hs

/-- Exact test that `needle` starts the list `hay` (first argument is the
needle). -/
def startsWithL : List Char → List Char → Bool
  | [], _ => true
  | _ :: _, [] => false
  | c :: cs, h :: hs => c == h && startsWithL cs hs

/-- Python substring containment `needle in hay` over char lists. -/
def containsL (needle : List Char) : List Char → Bool
  | [] => startsWithL needle []
  | c :: t => startsWithL needle (c :: t) || containsL needle t

/-- Python `needle in hay` on strings. -/
def strContains (hay needle : String) : Bool :=
  containsL needle.toList hay.toList

/-- Python `str.upper()` (ASCII), charwise — `String.toUpper` iterates over
byte positions, which the kernel cannot evaluate. -/
def upperStr (s : String) : String := String.mk (s.toList.map Char.toUpper)

/-- Length of the maximal run of characters satisfying `p` at the front. -/
def runLen (p : Char → Bool) : List Char → Nat
  | [] => 0
  | c :: t => if p c then runLen p t + 1 else 0

/-- Python `str.strip()`: drop leading and trailing whitespace. -/
def stripChars (l : List Char) : List Char :=
  ((l.dropWhile isWsChar).reverse.dropWhile isWsChar).reverse

/-- Python `content.split('\n')`. -/
def splitOnNl : List Char → List (List Char)
  | [] => [[]]
  | c :: t =>
      if c = '\n' then [] :: splitOnNl t
      else
        match splitOnNl t with
        | h :: r => (c :: h) :: r
        | [] => [[c]]

/-- Split a char list at whitespace (pieces may be empty). -/
def splitWsChars : List Char → List (List Char)
  | [] => [[]]
  | c :: t =>
      if isWsChar c then [] :: splitWsChars t
      else
        match splitWsChars t with
        | h :: r => (c :: h) :: r
        | [] => [[c]]

/-- Whitespace-separated words of a string (used by the sqlparse model). -/
def wordsOf (s : String) : List (List Char) :=
  (splitWsChars s.toList).filter (fun w => !w.isEmpty)

/-- Python `module.split('.')[0]`. -/
def firstSegmentStr (s : String) : String :=
  String.mk (s.toList.takeWhile (fun c => c != '.'))

/-! ## Query Pattern Matcher: model of the six compiled regular expressions

The source compiles six patterns (`SELECT\s+.*?FROM\s+\w+` etc.) and runs
`pattern.findall(line)` on every physical line.  The patterns are built from
four constructs only, embedded here: a case-insensitive literal keyword,
`\s+` (greedy), `\w+` (greedy) and `.*?` (lazy, any character). -/

inductive Pat where
  | kw : String → Pat
  | ws1 : Pat
  | word1 : Pat
  | lazyAny : Pat
deriving DecidableEq

/-- Match a pattern list at the start of `s`, returning the number of
characters consumed.  Greedy pieces try the longest repetition first and
backtrack; the lazy piece tries the shortest first — regex semantics. -/
def matchPats : List Pat → List Char → Option Nat
  | [], _ => some 0
  | Pat.kw w :: ps, s =>
      let wl := w.toList
      if ciStarts wl s then (matchPats ps (s.drop wl.length)).map (· + wl.length) else none
  | Pat.ws1 :: ps, s =>
      let n := runLen isWsChar s
      ((List.range n).map (fun i => n - i)).findSome? fun k =>
        (matchPats ps (s.drop k)).map (· + k)
  | Pat.word1 :: ps, s =>
      let n := runLen isWordChar s
      ((List.range n).map (fun i => n - i)).findSome? fun k =>
        (matchPats ps (s.drop k)).map (· + k)
  | Pat.lazyAny :: ps, s =>
      (List.range (s.length + 1)).findSome? fun k =>
        (matchPats ps (s.drop k)).map (· + k)

/-- `pattern.findall(line)`: scan left to right, record each leftmost
non-overlapping match, resume after the matched text, advance one character
on failure.  The six source patterns all start with a non-empty keyword and
therefore never produce an empty match; a zero-width result is treated as a
failed position.  The `fuel` argument only makes the recursion structural
(every step consumes at least one character, so `fuel = s.length` is always
enough). -/
def findallFuel (pats : List Pat) : Nat → List Char → List (List Char)
  | 0, _ => []
  | _, [] => []
  | fuel + 1, c :: t =>
      match matchPats pats (c :: t) with
      | some (n + 1) => (c :: t).take (n + 1) :: findallFuel pats fuel (t.drop n)
      | _ => findallFuel pats fuel t

/-- `pattern.findall(line)` over a char list. -/
def findallAux (pats : List Pat) (s : List Char) : List (List Char) :=
  findallFuel pats s.length s

/-- `re.compile(r'SELECT\s+.*?FROM\s+\w+', re.IGNORECASE | re.DOTALL)` -/
def selectPat : List Pat := [Pat.kw "SELECT", Pat.ws1, Pat.lazyAny, Pat.kw "FROM", Pat.ws1, Pat.word1]

/-- `re.compile(r'INSERT\s+INTO\s+\w+', re.IGNORECASE)` -/
def insertPat : List Pat := [Pat.kw "INSERT", Pat.ws1, Pat.kw "INTO", Pat.ws1, Pat.word1]

/-- `re.compile(r'UPDATE\s+\w+\s+SET', re.IGNORECASE)` -/
def updatePat : List Pat := [Pat.kw "UPDATE", Pat.ws1, Pat.word1, Pat.ws1, Pat.kw "SET"]

/-- `re.compile(r'DELETE\s+FROM\s+\w+', re.IGNORECASE)` -/
def deletePat : List Pat := [Pat.kw "DELETE", Pat.ws1, Pat.kw "FROM", Pat.ws1, Pat.word1]

/-- `re.compile(r'CREATE\s+TABLE\s+\w+', re.IGNORECASE)` -/
def createPat : List Pat := [Pat.kw "CREATE", Pat.ws1, Pat.kw "TABLE", Pat.ws1, Pat.word1]

/-- `re.compile(r'DROP\s+TABLE\s+\w+', re.IGNORECASE)` -/
def dropPat : List Pat := [Pat.kw "DROP", Pat.ws1, Pat.kw "TABLE", Pat.ws1, Pat.word1]

/-- `self.sql_patterns`, in source order. -/
def sqlPatterns : List (List Pat) :=
  [selectPat, insertPat, updatePat, deletePat, createPat, dropPat]

/-! ## Statement Classifier: model of the external sqlparse library

`sqlparse` is an external library (not part of src/).  Modelled from its
documented keyword classification: `SELECT/INSERT/UPDATE/DELETE` tokenize as
`Keyword.DML`; `CREATE/DROP/ALTER` tokenize as `Keyword.DDL` (which is *not*
the `DML` token type the source tests with `token.ttype is DML`);
`FROM/INTO/SET/TABLE/...` are plain keywords; remaining words stand for the
`Identifier` groups whose `get_name()` the source collects.
`sqlparse.parse("")` yields no statements, so the source's `[0]` raises an
`IndexError` that its `except Exception` swallows. -/

inductive TType where
  | dml
  | ddl
  | keywd
  | ident
deriving DecidableEq

/-- One token of the shallow sqlparse model. -/
structure SToken where
  ttype : TType
  value : String
deriving DecidableEq

def dmlWords : List String := ["SELECT", "INSERT", "UPDATE", "DELETE"]

def ddlWords : List String := ["CREATE", "DROP", "ALTER"]

def plainKeywords : List String := ["FROM", "INTO", "SET", "TABLE", "WHERE", "VALUES", "AND", "OR"]

def classifyWord (w : String) : SToken :=
  let u := upperStr w
  if dmlWords.contains u then ⟨TType.dml, w⟩
  else if ddlWords.contains u then ⟨TType.ddl, w⟩
  else if plainKeywords.contains u then ⟨TType.keywd, w⟩
  else ⟨TType.ident, w⟩

/-- Modelled from the external sqlparse library: `sqlparse.parse(q)`, reduced
to the flat statements the heuristically matched fragments produce. -/
def sqlparseStatements (q : String) : List (List SToken) :=
  match wordsOf q with
  | [] => []
  | w :: ws => [(w :: ws).map (fun l => classifyWord (String.mk l))]

/-- Result triple of `analyze_sql_query` (`{'type': .., 'tables': .., 'columns': ..}`). -/
structure QueryInfo where
  qtype : String
  tables : List String
  columns : List String
deriving DecidableEq

/-- `PythonASTAnalyzer.extract_tables_and_columns` (lines 177-196): the
recursive `extract_from_token` collects `get_name()` of every
`Identifier`/`IdentifierList` member — in the flat token model, of every
identifier token.  `columns` is never appended to anywhere in the source, so
it is always the empty set.  Both lists pass through `list(set(...))`. -/
def extract_tables_and_columns (setList : List String → List String)
    (toks : List SToken) : List String × List String :=
  let tables := toks.filterMap fun t =>
    if t.ttype = TType.ident then some t.value else none
  (setList tables, setList [])

/-- Body of the `try:` block of `PythonASTAnalyzer.analyze_sql_query`
(lines 149-169); `Except.error` marks the exceptions the `except` catches
(the `[0]` on an empty statement list). -/
def analyze_sql_query_try (setList : List String → List String)
    (query : String) : Except String QueryInfo :=
  match sqlparseStatements query with
  | [] => Except.error "IndexError: list index out of range"
  | toks :: _ =>
      let query_type :=
        match toks.find? (fun t => t.ttype = TType.dml) with
        | some t => upperStr t.value
        | none => "UNKNOWN"
      let tc := extract_tables_and_columns setList toks
      Except.ok ⟨query_type, tc.1, tc.2⟩

/-- `PythonASTAnalyzer.analyze_sql_query` (lines 148-175): any exception in
the try body is caught and replaced by the UNKNOWN/empty default. -/
def analyze_sql_query (setList : List String → List String)
    (query : String) : QueryInfo :=
  match analyze_sql_query_try setList query with
  | Except.ok r => r
  | Except.error _ => ⟨"UNKNOWN", [], []⟩

/-- `SQLQuery` dataclass (lines 47-54). -/
structure SQLQuery where
  query : String
  query_type : String
  tables : List String
  columns : List String
  line_number : Nat
  context : String
deriving DecidableEq

/-- Record construction inside `extract_sql_queries` (lines 137-144). -/
def mkSQLRecord (setList : List String → List String) (i : Nat)
    (line m : List Char) : SQLQuery :=
  let qi := analyze_sql_query setList (String.mk m)
  { query := String.mk (stripChars m)
  , query_type := qi.qtype
  , tables := qi.tables
  , columns := qi.columns
  , line_number := i + 1
  , context := String.mk (stripChars line) }

/-- The `for i, line in enumerate(lines)` loop of `extract_sql_queries`:
for each line, every pattern's matches in pattern order. -/
def extractLines (setList : List String → List String) :
    Nat → List (List Char) → List SQLQuery
  | _, [] => []
  | i, line :: rest =>
      (sqlPatterns.flatMap fun pats => (findallAux pats line).map (mkSQLRecord setList i line))
        ++ extractLines setList (i + 1) rest

/-- `PythonASTAnalyzer.extract_sql_queries` (lines 128-146). -/
def extract_sql_queries (setList : List String → List String)
    (content : String) : List SQLQuery :=
  extractLines setList 0 (splitOnNl content.toList)

/-! ## The Syntax Tree

Embedding of the Python `ast` node types the analyzer distinguishes.  A node
the analyzer treats generically (numbers, subscripts, binary operators, ...)
is `constOther`.  Comprehension nodes carry the list of their child
expressions (element, iterables, conditions).  Function arguments are
modelled as their names (functions with default-value expressions are outside
the embedded fragment).  Line numbers are carried only by the nodes whose
records use them. -/

inductive Expr where
  | name : String → Expr
  | attr : Expr → String → Expr
  | call : Expr → List Expr → Expr
  | strLit : String → Expr
  | constOther : Expr
  | listComp : List Expr → Expr
  | setComp : List Expr → Expr
  | dictComp : List Expr → Expr
  | generatorExp : List Expr → Expr

/-- One `alias` node of an import statement: name and `asname`. -/
structure ImportAlias where
  aname : String
  asname : Option String
deriving DecidableEq

mutual
inductive FDefCore where
  | mk : String → List String → Option Expr → List Expr → List Stmt → Nat → FDefCore

inductive Stmt where
  | functionDef : FDefCore → Stmt
  | asyncFunctionDef : FDefCore → Stmt
  | classDef : String → List Expr → List Stmt → Nat → Stmt
  | importStmt : List ImportAlias → Nat → Stmt
  | importFrom : Option String → List ImportAlias → Nat → Stmt
  | assign : List Expr → Expr → Nat → Stmt
  | ret : Option Expr → Stmt
  | exprStmt : Expr → Stmt
  | passStmt : Stmt
  | ifStmt : Expr → List Stmt → List Stmt → Stmt
  | whileStmt : Expr → List Stmt → List Stmt → Stmt
  | forStmt : Expr → Expr → List Stmt → List Stmt → Stmt
  | asyncForStmt : Expr → Expr → List Stmt → List Stmt → Stmt
  | withStmt : List Expr → List Stmt → Stmt
  | asyncWithStmt : List Expr → List Stmt → Stmt
  | tryStmt : List Stmt → List (List Stmt) → List Stmt → List Stmt → Stmt
end

/-- `ast.Module`: the root node produced by the external parser. -/
structure Module where
  body : List Stmt

def FDefCore.fname : FDefCore → String
  | .mk n _ _ _ _ _ => n

def FDefCore.fargs : FDefCore → List String
  | .mk _ a _ _ _ _ => a

def FDefCore.freturns : FDefCore → Option Expr
  | .mk _ _ r _ _ _ => r

def FDefCore.fdecorators : FDefCore → List Expr
  | .mk _ _ _ d _ _ => d

def FDefCore.fbody : FDefCore → List Stmt
  | .mk _ _ _ _ b _ => b

def FDefCore.flineno : FDefCore → Nat
  | .mk _ _ _ _ _ l => l

/-- The node types of the tree, used to state walk-and-count properties
(`ast.walk` enumerates every node; order is irrelevant to a count). -/
inductive NodeKind where
  | moduleK
  | functionDefK
  | asyncFunctionDefK
  | classDefK
  | importK
  | importFromK
  | assignK
  | returnK
  | exprStmtK
  | passK
  | ifK
  | whileK
  | forK
  | asyncForK
  | withK
  | asyncWithK
  | tryK
  | exceptHandlerK
  | nameK
  | attributeK
  | callK
  | strK
  | constK
  | listCompK
  | setCompK
  | dictCompK
  | generatorExpK
deriving DecidableEq

mutual
def exprKinds : Expr → List NodeKind
  | .name _ => [.nameK]
  | .attr v _ => .attributeK :: exprKinds v
  | .call f args => .callK :: (exprKinds f ++ exprListKinds args)
  | .strLit _ => [.strK]
  | .constOther => [.constK]
  | .listComp subs => .listCompK :: exprListKinds subs
  | .setComp subs => .setCompK :: exprListKinds subs
  | .dictComp subs => .dictCompK :: exprListKinds subs
  | .generatorExp subs => .generatorExpK :: exprListKinds subs

def exprListKinds : List Expr → List NodeKind
  | [] => []
  | e :: es => exprKinds e ++ exprListKinds es
end

def optExprKinds : Option Expr → List NodeKind
  | none => []
  | some e => exprKinds e

mutual
def stmtKinds : Stmt → List NodeKind
  | .functionDef d => .functionDefK :: fdefChildKinds d
  | .asyncFunctionDef d => .asyncFunctionDefK :: fdefChildKinds d
  | .classDef _ bases body _ => .classDefK :: (exprListKinds bases ++ stmtListKinds body)
  | .importStmt _ _ => [.importK]
  | .importFrom _ _ _ => [.importFromK]
  | .assign targets v _ => .assignK :: (exprListKinds targets ++ exprKinds v)
  | .ret e => .returnK :: optExprKinds e
  | .exprStmt e => .exprStmtK :: exprKinds e
  | .passStmt => [.passK]
  | .ifStmt t b e => .ifK :: (exprKinds t ++ stmtListKinds b ++ stmtListKinds e)
  | .whileStmt t b e => .whileK :: (exprKinds t ++ stmtListKinds b ++ stmtListKinds e)
  | .forStmt tg it b e =>
      .forK :: (exprKinds tg ++ exprKinds it ++ stmtListKinds b ++ stmtListKinds e)
  | .asyncForStmt tg it b e =>
      .asyncForK :: (exprKinds tg ++ exprKinds it ++ stmtListKinds b ++ stmtListKinds e)
  | .withStmt items b => .withK :: (exprListKinds items ++ stmtListKinds b)
  | .asyncWithStmt items b => .asyncWithK :: (exprListKinds items ++ stmtListKinds b)
  | .tryStmt b hs o f =>
      .tryK :: (stmtListKinds b ++ handlerKinds hs ++ stmtListKinds o ++ stmtListKinds f)

def fdefChildKinds : FDefCore → List NodeKind
  | .mk _ _ r dec body _ => exprListKinds dec ++ optExprKinds r ++ stmtListKinds body

def stmtListKinds : List Stmt → List NodeKind
  | [] => []
  | s :: ss => stmtKinds s ++ stmtListKinds ss

def handlerKinds : List (List Stmt) → List NodeKind
  | [] => []
  | h :: hs => (.exceptHandlerK :: stmtListKinds h) ++ handlerKinds hs
end

/-- All node kinds of a module tree, as `ast.walk(tree)` enumerates them
(the root `Module` node included). -/
def moduleKinds (m : Module) : List NodeKind :=
  NodeKind.moduleK :: stmtListKinds m.body

/-! ## Complexity Calculator -/

mutual
def exprCyclo : Expr → Nat
  | .name _ => 0
  | .attr v _ => exprCyclo v
  | .call f args => exprCyclo f + exprListCyclo args
  | .strLit _ => 0
  | .constOther => 0
  | .listComp subs => 1 + exprListCyclo subs
  | .setComp subs => 1 + exprListCyclo subs
  | .dictComp subs => 1 + exprListCyclo subs
  | .generatorExp subs => 1 + exprListCyclo subs

def exprListCyclo : List Expr → Nat
  | [] => 0
  | e :: es => exprCyclo e + exprListCyclo es
end

def optExprCyclo : Option Expr → Nat
  | none => 0
  | some e => exprCyclo e

/-! The walk of `calculate_cyclomatic_complexity` (lines 214-222), embedded
structurally: `If/While/For/AsyncFor`, each `ExceptHandler`, `With` and the
four comprehension kinds add 1.  `ast.AsyncWith` is *not* tested by the
`isinstance` chain (line 219 tests `ast.With` only, and `AsyncWith` is a
distinct node class), so an async resource block adds nothing. -/
mutual
def stmtCyclo : Stmt → Nat
  | .functionDef d => fdefCyclo d
  | .asyncFunctionDef d => fdefCyclo d
  | .classDef _ bases body _ => exprListCyclo bases + stmtListCyclo body
  | .importStmt _ _ => 0
  | .importFrom _ _ _ => 0
  | .assign targets v _ => exprListCyclo targets + exprCyclo v
  | .ret e => optExprCyclo e
  | .exprStmt e => exprCyclo e
  | .passStmt => 0
  | .ifStmt t b e => 1 + exprCyclo t + stmtListCyclo b + stmtListCyclo e
  | .whileStmt t b e => 1 + exprCyclo t + stmtListCyclo b + stmtListCyclo e
  | .forStmt tg it b e => 1 + exprCyclo tg + exprCyclo it + stmtListCyclo b + stmtListCyclo e
  | .asyncForStmt tg it b e =>
      1 + exprCyclo tg + exprCyclo it + stmtListCyclo b + stmtListCyclo e
  | .withStmt items b => 1 + exprListCyclo items + stmtListCyclo b
  | .asyncWithStmt items b => exprListCyclo items + stmtListCyclo b
  | .tryStmt b hs o f =>
      stmtListCyclo b + handlerCyclo hs + stmtListCyclo o + stmtListCyclo f

def fdefCyclo : FDefCore → Nat
  | .mk _ _ r dec body _ => exprListCyclo dec + optExprCyclo r + stmtListCyclo body

def stmtListCyclo : List Stmt → Nat
  | [] => 0
  | s :: ss => stmtCyclo s + stmtListCyclo ss

def handlerCyclo : List (List Stmt) → Nat
  | [] => 0
  | h :: hs => (1 + stmtListCyclo h) + handlerCyclo hs
end

/-- `PythonASTAnalyzer.calculate_cyclomatic_complexity` (lines 211-224). -/
def calculate_cyclomatic_complexity (m : Module) : Nat :=
  1 + stmtListCyclo m.body

/-! ## `ast.unparse` and the per-function body walk -/

def joinComma : List String → String
  | [] => ""
  | [s] => s
  | s :: rest => s ++ ", " ++ joinComma rest

/-! `ast.unparse` on expression nodes, to the extent the records rely on it
(qualified names; a call prints its callee and arguments; the remaining
shapes get fixed placeholder text, which no record in the claims inspects). -/
mutual
def Expr.unparse : Expr → String
  | .name id => id
  | .attr v a => Expr.unparse v ++ "." ++ a
  | .call f args => Expr.unparse f ++ "(" ++ joinComma (unparseList args) ++ ")"
  | .strLit s => "'" ++ s ++ "'"
  | .constOther => "None"
  | .listComp _ => "[...]"
  | .setComp _ => "{...}"
  | .dictComp _ => "{...}"
  | .generatorExp _ => "(...)"

def unparseList : List Expr → List String
  | [] => []
  | e :: es => Expr.unparse e :: unparseList es
end

/-- `self.data_libs` of `ASTVisitor.__init__` (line 243). -/
def dataLibs : List String := ["pandas", "pd", "numpy", "np", "spark", "pyspark"]

/-- `any(lib in call_name for lib in self.data_libs)` — Python substring
containment. -/
def isDataCallName (callName : String) : Bool :=
  dataLibs.any (fun lib => strContains callName lib)

/-- The keyword list of line 271. -/
def sqlKeywords : List String := ["SELECT", "INSERT", "UPDATE", "DELETE"]

/-- `any(keyword in child.s.upper() for keyword in [...])` (line 271). -/
def strHasSqlKeyword (s : String) : Bool :=
  sqlKeywords.any (fun k => strContains (upperStr s) k)

/-! All expression nodes of an expression subtree, the node itself included.
`ast.walk` enumerates nodes breadth-first; the walk in `visit_FunctionDef`
only filters nodes by type and its call/data-operation results then pass
through `list(set(...))`, so the enumeration order is embedded depth-first
without affecting any stated property. -/
mutual
def exprSubNodes : Expr → List Expr
  | .name s => [.name s]
  | .attr v a => .attr v a :: exprSubNodes v
  | .call f args => .call f args :: (exprSubNodes f ++ exprListSubNodes args)
  | .strLit s => [.strLit s]
  | .constOther => [.constOther]
  | .listComp subs => .listComp subs :: exprListSubNodes subs
  | .setComp subs => .setComp subs :: exprListSubNodes subs
  | .dictComp subs => .dictComp subs :: exprListSubNodes subs
  | .generatorExp subs => .generatorExp subs :: exprListSubNodes subs

def exprListSubNodes : List Expr → List Expr
  | [] => []
  | e :: es => exprSubNodes e ++ exprListSubNodes es
end

def optExprSubNodes : Option Expr → List Expr
  | none => []
  | some e => exprSubNodes e

mutual
def stmtExprNodes : Stmt → List Expr
  | .functionDef d => fdefExprNodes d
  | .asyncFunctionDef d => fdefExprNodes d
  | .classDef _ bases body _ => exprListSubNodes bases ++ stmtListExprNodes body
  | .importStmt _ _ => []
  | .importFrom _ _ _ => []
  | .assign targets v _ => exprListSubNodes targets ++ exprSubNodes v
  | .ret e => optExprSubNodes e
  | .exprStmt e => exprSubNodes e
  | .passStmt => []
  | .ifStmt t b e => exprSubNodes t ++ stmtListExprNodes b ++ stmtListExprNodes e
  | .whileStmt t b e => exprSubNodes t ++ stmtListExprNodes b ++ stmtListExprNodes e
  | .forStmt tg it b e =>
      exprSubNodes tg ++ exprSubNodes it ++ stmtListExprNodes b ++ stmtListExprNodes e
  | .asyncForStmt tg it b e =>
      exprSubNodes tg ++ exprSubNodes it ++ stmtListExprNodes b ++ stmtListExprNodes e
  | .withStmt items b => exprListSubNodes items ++ stmtListExprNodes b
  | .asyncWithStmt items b => exprListSubNodes items ++ stmtListExprNodes b
  | .tryStmt b hs o f =>
      stmtListExprNodes b ++ handlerExprNodes hs ++ stmtListExprNodes o ++ stmtListExprNodes f

def fdefExprNodes : FDefCore → List Expr
  | .mk _ _ r dec body _ =>
      exprListSubNodes dec ++ optExprSubNodes r ++ stmtListExprNodes body

def stmtListExprNodes : List Stmt → List Expr
  | [] => []
  | s :: ss => stmtExprNodes s ++ stmtListExprNodes ss

def handlerExprNodes : List (List Stmt) → List Expr
  | [] => []
  | h :: hs => stmtListExprNodes h ++ handlerExprNodes hs
end

/-- The `isinstance(child, ast.Call)` branch of the walk (lines 258-263): a
bare-name call contributes its name, a qualified call its unparsed text. -/
def callNameOf : Expr → Option String
  | .call (.name id) _ => some id
  | .call (.attr v a) _ => some (Expr.unparse (Expr.attr v a))
  | _ => none

/-- Lines 265-267: a qualified call whose text contains a data-library marker
is also recorded as a data operation. -/
def dataOpNameOf : Expr → Option String
  | .call (.attr v a) _ =>
      let cn := Expr.unparse (Expr.attr v a)
      if isDataCallName cn then some cn else none
  | _ => none

/-- Lines 269-272: a string literal containing an SQL keyword (uppercased)
is recorded verbatim. -/
def sqlStringOf : Expr → Option String
  | .strLit s => if strHasSqlKeyword s then some s else none
  | _ => none

/-- `calls_made` occurrences collected by the walk of `visit_FunctionDef`
over the whole function node (decorators, return annotation and body). -/
def collectCalls (d : FDefCore) : List String :=
  (fdefExprNodes d).filterMap callNameOf

def collectDataOps (d : FDefCore) : List String :=
  (fdefExprNodes d).filterMap dataOpNameOf

def collectSqlStrings (d : FDefCore) : List String :=
  (fdefExprNodes d).filterMap sqlStringOf

/-! ## The Scoped Extractor (`ASTVisitor`) -/

/-- `FunctionInfo` dataclass (lines 11-21). -/
structure FunctionInfo where
  name : String
  args : List String
  returns : Option String
  line_number : Nat
  docstring : Option String
  decorators : List String
  calls_made : List String
  sql_queries : List String
  data_operations : List String
deriving DecidableEq

/-- `ClassInfo` dataclass (lines 23-30). -/
structure ClassInfo where
  name : String
  methods : List FunctionInfo
  attributes : List String
  inheritance : List String
  line_number : Nat
  docstring : Option String
deriving DecidableEq

/-- `ImportInfo` dataclass (lines 32-37). -/
structure ImportInfo where
  module : String
  names : List String
  aliasName : Option String
  line_number : Nat
deriving DecidableEq

/-- `DataOperation` dataclass (lines 39-45). -/
structure DataOperation where
  operation_type : String
  target : String
  method : String
  line_number : Nat
  context : String
deriving DecidableEq

/-- The mutable fields of `ASTVisitor` (lines 235-241). -/
structure VState where
  functions : List FunctionInfo
  classes : List ClassInfo
  imports : List ImportInfo
  global_variables : List String
  data_operations : List DataOperation
  current_class : Option String
deriving DecidableEq

def initState : VState :=
  { functions := [], classes := [], imports := [], global_variables := []
  , data_operations := [], current_class := none }

/-- `ast.get_docstring(node)`: the first body statement is a string-literal
expression (the cleaning of indentation is irrelevant to every claim and is
not modelled). -/
def getDocstring : List Stmt → Option String
  | Stmt.exprStmt (Expr.strLit s) :: _ => some s
  | _ => none

/-- The `FunctionInfo(...)` construction of `visit_FunctionDef`
(lines 274-284): `calls_made` and `data_operations` go through
`list(set(...))`, i.e. through the parametric `setList`. -/
def mkFuncInfo (setList : List String → List String) (d : FDefCore) : FunctionInfo :=
  { name := d.fname
  , args := d.fargs
  , returns := d.freturns.map Expr.unparse
  , line_number := d.flineno
  , docstring := getDocstring d.fbody
  , decorators := d.fdecorators.map Expr.unparse
  , calls_made := setList (collectCalls d)
  , sql_queries := collectSqlStrings d
  , data_operations := setList (collectDataOps d) }

/-- Simple-name assignment targets (`isinstance(target, ast.Name)`). -/
def nameTargetId : Expr → Option String
  | .name id => some id
  | _ => none

def joinEq : List String → String
  | [] => ""
  | [s] => s
  | s :: rest => s ++ " = " ++ joinEq rest

/-- `ast.unparse(node)` on a whole assignment statement. -/
def unparseAssign (targets : List Expr) (v : Expr) : String :=
  joinEq (unparseList targets ++ [Expr.unparse v])

/-- `ASTVisitor.visit_Assign` (lines 353-374).  `if not self.current_class:`
tests the truthiness of the optional class name; class names produced by the
parser are never empty, so the embedding tests presence.  The trailing
`generic_visit` only visits expression children, which no visitor method
handles, so it changes nothing. -/
def visit_Assign (st : VState) (targets : List Expr) (v : Expr) (lineno : Nat) : VState :=
  let st1 :=
    match st.current_class with
    | none =>
        { st with global_variables := st.global_variables ++ targets.filterMap nameTargetId }
    | some _ => st
  match v with
  | Expr.call (Expr.attr av aa) cargs =>
      let call_name := Expr.unparse (Expr.attr av aa)
      if isDataCallName call_name then
        { st1 with data_operations := st1.data_operations ++
            [{ operation_type := "assignment"
             , target := match targets with
                         | [] => "unknown"
                         | t :: _ => Expr.unparse t
             , method := call_name
             , line_number := lineno
             , context := unparseAssign targets (Expr.call (Expr.attr av aa) cargs) }] }
      else st1
  | _ => st1

/-- `ASTVisitor.visit_Import` (lines 328-338). -/
def visit_Import (st : VState) (aliases : List ImportAlias) (lineno : Nat) : VState :=
  { st with imports := st.imports ++ aliases.map (fun a =>
      { module := a.aname, names := [a.aname], aliasName := a.asname
      , line_number := lineno }) }

/-- `ASTVisitor.visit_ImportFrom` (lines 340-351): `if node.module:` — a
purely relative import has `module = None` and is skipped entirely. -/
def visit_ImportFrom (st : VState) (module : Option String)
    (aliases : List ImportAlias) (lineno : Nat) : VState :=
  match module with
  | some m =>
      { st with imports := st.imports ++
          [{ module := m, names := aliases.map (·.aname), aliasName := none
           , line_number := lineno }] }
  | none => st

/-! The dispatch of `ast.NodeVisitor.visit`: statements with a `visit_X`
method go to it, every other node gets `generic_visit`, which visits the
children in field order.  Expression children are inert (no visitor method
matches inside expressions), so only statement children are threaded.
`visitFDef` is `visit_FunctionDef` (lines 245-293): build the record, append
it to `functions` only at module scope, then `generic_visit` descends into
the body with the class context unchanged.  `visit_ClassDef`
(lines 295-326) pushes the class name, loops over the direct children of the
class body — a `FunctionDef` child is visited through `visit_FunctionDef` and
its record collected as a method, an `Assign` child contributes its
simple-name targets as attributes, everything else is ignored — then appends
the `ClassInfo` and restores the previous class context without a
`generic_visit`.  `AsyncFunctionDef` has no visitor method, so
`generic_visit` descends into its body and nothing records the function
itself. -/
mutual
def visitStmts (setList : List String → List String) (st : VState) : List Stmt → VState
  | [] => st
  | s :: ss => visitStmts setList (visitStmt setList st s) ss

def visitStmt (setList : List String → List String) (st : VState) : Stmt → VState
  | .functionDef d => (visitFDef setList st d).1
  | .asyncFunctionDef (.mk _ _ _ _ body _) => visitStmts setList st body
  | .classDef n bases body ln =>
      let old := st.current_class
      let st0 := { st with current_class := some n }
      let q := classBody setList st0 body
      let ci : ClassInfo :=
        { name := n
        , methods := q.2.1
        , attributes := q.2.2
        , inheritance := bases.map Expr.unparse
        , line_number := ln
        , docstring := getDocstring body }
      { q.1 with classes := q.1.classes ++ [ci], current_class := old }
  | .importStmt aliases ln => visit_Import st aliases ln
  | .importFrom mo aliases ln => visit_ImportFrom st mo aliases ln
  | .assign targets v ln => visit_Assign st targets v ln
  | .ret _ => st
  | .exprStmt _ => st
  | .passStmt => st
  | .ifStmt _ b e => visitStmts setList (visitStmts setList st b) e
  | .whileStmt _ b e => visitStmts setList (visitStmts setList st b) e
  | .forStmt _ _ b e => visitStmts setList (visitStmts setList st b) e
  | .asyncForStmt _ _ b e => visitStmts setList (visitStmts setList st b) e
  | .withStmt _ b => visitStmts setList st b
  | .asyncWithStmt _ b => visitStmts setList st b
  | .tryStmt b hs o f =>
      visitStmts setList
        (visitStmts setList (visitHandlers setList (visitStmts setList st b) hs) o) f

def visitFDef (setList : List String → List String) (st : VState) :
    FDefCore → VState × FunctionInfo
  | FDefCore.mk n args r dec body ln =>
      let fi := mkFuncInfo setList (FDefCore.mk n args r dec body ln)
      let st1 :=
        match st.current_class with
        | none => { st with functions := st.functions ++ [fi] }
        | some _ => st
      (visitStmts setList st1 body, fi)

def classBody (setList : List String → List String) (st : VState) :
    List Stmt → VState × List FunctionInfo × List String
  | [] => (st, [], [])
  | Stmt.functionDef d :: rest =>
      let p := visitFDef setList st d
      let q := classBody setList p.1 rest
      (q.1, p.2 :: q.2.1, q.2.2)
  | Stmt.assign targets _ _ :: rest =>
      let q := classBody setList st rest
      (q.1, q.2.1, targets.filterMap nameTargetId ++ q.2.2)
  | _ :: rest => classBody setList st rest

def visitHandlers (setList : List String → List String) (st : VState) :
    List (List Stmt) → VState
  | [] => st
  | h :: hs => visitHandlers setList (visitStmts setList st h) hs
end

/-- `visitor = ASTVisitor(); visitor.visit(tree)`: `Module` has no visitor
method, so `generic_visit` visits the top-level statements in order. -/
def runVisitor (setList : List String → List String) (m : Module) : VState :=
  visitStmts setList initState m.body

/-! ## Complexity metrics, dependencies, and the Assembler -/

/-- `line.strip() and not line.strip().startswith('#')` (line 202). -/
def isLocLine (l : List Char) : Bool :=
  !(stripChars l).isEmpty && (stripChars l).head? != some '#'

/-- `line.strip().startswith('#')` (line 204). -/
def isCommentLine (l : List Char) : Bool :=
  (stripChars l).head? == some '#'

/-- `ComplexityMetrics` — the dict built by `calculate_complexity_metrics`
(lines 198-209). -/
structure ComplexityMetrics where
  lines_of_code : Nat
  total_lines : Nat
  comment_lines : Nat
  function_count : Nat
  class_count : Nat
  cyclomatic_complexity : Nat
  import_count : Nat
deriving DecidableEq

def calculate_complexity_metrics (m : Module) (content : String) : ComplexityMetrics :=
  let lines := splitOnNl content.toList
  let ks := moduleKinds m
  { lines_of_code := (lines.filter isLocLine).length
  , total_lines := lines.length
  , comment_lines := (lines.filter isCommentLine).length
  , function_count := ks.countP (fun k => k == NodeKind.functionDefK)
  , class_count := ks.countP (fun k => k == NodeKind.classDefK)
  , cyclomatic_complexity := calculate_cyclomatic_complexity m
  , import_count := ks.countP (fun k => k == NodeKind.importK || k == NodeKind.importFromK) }

/-- `PythonASTAnalyzer.identify_dependencies` (lines 226-232): first path
segment of each imported module, through set semantics. -/
def identify_dependencies (setList : List String → List String)
    (imports : List ImportInfo) : List String :=
  setList (imports.map fun i => firstSegmentStr i.module)

/-- The `complexity_metrics` field: the metrics dict, or the `{'error': msg}`
descriptor the `except SyntaxError` branch substitutes. -/
inductive MetricsOrError where
  | metrics : ComplexityMetrics → MetricsOrError
  | errorDescriptor : String → MetricsOrError
deriving DecidableEq

/-- `AnalysisResult` dataclass (lines 56-66). -/
structure AnalysisResult where
  file_path : String
  functions : List FunctionInfo
  classes : List ClassInfo
  imports : List ImportInfo
  global_variables : List String
  data_operations : List DataOperation
  sql_queries : List SQLQuery
  complexity_metrics : MetricsOrError
  dependencies : List String
deriving DecidableEq

/-- `PythonASTAnalyzer.analyze_file` (lines 86-126).  `parse` stands for the
external `ast.parse`; its `Except.error` case is the `SyntaxError` the
`except` clause catches, upon which a degraded result is returned instead of
propagating an exception. -/
def analyze_file (setList : List String → List String)
    (parse : String → Except String Module)
    (file_path content : String) : AnalysisResult :=
  match parse content with
  | Except.ok tree =>
      let v := runVisitor setList tree
      { file_path := file_path
      , functions := v.functions
      , classes := v.classes
      , imports := v.imports
      , global_variables := v.global_variables
      , data_operations := v.data_operations
      , sql_queries := extract_sql_queries setList content
      , complexity_metrics := MetricsOrError.metrics (calculate_complexity_metrics tree content)
      , dependencies := identify_dependencies setList v.imports }
  | Except.error e =>
      { file_path := file_path
      , functions := []
      , classes := []
      , imports := []
      , global_variables := []
      , data_operations := []
      , sql_queries := []
      , complexity_metrics := MetricsOrError.errorDescriptor e
      , dependencies := [] }

/-! ## Python set semantics, parametrically

`list(set(xs))` in CPython enumerates the set in a hash-table order that
string-hash randomization changes from process to process.  The only
guarantees are: no duplicates, and the same membership as `xs`. -/

def SetListOK (f : List String → List String) : Prop :=
  ∀ xs : List String, (f xs).Nodup ∧ ∀ a : String, a ∈ f xs ↔ a ∈ xs

/-- Deduplication keeping the first occurrence, in order — one legitimate
set-to-list order. -/
def firstOccAux (seen : List String) : List String → List String
  | [] => []
  | x :: t => if x ∈ seen then firstOccAux seen t else x :: firstOccAux (x :: seen) t

def firstOccDedup (l : List String) : List String := firstOccAux [] l

/-- Deduplication in reversed first-occurrence order — another legitimate
set-to-list order. -/
def revOccDedup (l : List String) : List String := (firstOccDedup l).reverse

/-! ## Specification-side definitions -/

/-- The node kinds the `isinstance` chain of
`calculate_cyclomatic_complexity` actually counts (lines 214-222). -/
def codeDecision : NodeKind → Bool
  | .ifK => true
  | .whileK => true
  | .forK => true
  | .asyncForK => true
  | .exceptHandlerK => true
  | .withK => true
  | .listCompK => true
  | .setCompK => true
  | .dictCompK => true
  | .generatorExpK => true
  | _ => false

/-- The decision constructs the specification's sentence lists: conditional
branch, loop (synchronous or asynchronous), exception handler clause,
resource-scope block (synchronous or asynchronous), comprehension/generator
expression.  It differs from `codeDecision` exactly on the asynchronous
resource-scope block. -/
def specDecision : NodeKind → Bool
  | .asyncWithK => true
  | k => codeDecision k

/-! Recursive absence of class declarations (used to say "the input contains
exactly one class declaration"). -/
mutual
def stmtClassFree : Stmt → Bool
  | .functionDef (.mk _ _ _ _ body _) => stmtsClassFree body
  | .asyncFunctionDef (.mk _ _ _ _ body _) => stmtsClassFree body
  | .classDef _ _ _ _ => false
  | .importStmt _ _ => true
  | .importFrom _ _ _ => true
  | .assign _ _ _ => true
  | .ret _ => true
  | .exprStmt _ => true
  | .passStmt => true
  | .ifStmt _ b e => stmtsClassFree b && stmtsClassFree e
  | .whileStmt _ b e => stmtsClassFree b && stmtsClassFree e
  | .forStmt _ _ b e => stmtsClassFree b && stmtsClassFree e
  | .asyncForStmt _ _ b e => stmtsClassFree b && stmtsClassFree e
  | .withStmt _ b => stmtsClassFree b
  | .asyncWithStmt _ b => stmtsClassFree b
  | .tryStmt b hs o f =>
      stmtsClassFree b && handlersClassFree hs && stmtsClassFree o && stmtsClassFree f

def stmtsClassFree : List Stmt → Bool
  | [] => true
  | s :: ss => stmtClassFree s && stmtsClassFree ss

def handlersClassFree : List (List Stmt) → Bool
  | [] => true
  | h :: hs => stmtsClassFree h && handlersClassFree hs
end

/-! All synchronous function-definition nodes of a subtree.  `stmtDefs` never
collects an `asyncFunctionDef` node itself (only the synchronous definitions
nested below it): `ast.AsyncFunctionDef` is a distinct node class, is not an
`ast.FunctionDef`, and the visitor has no method for it. -/
mutual
def stmtDefs : Stmt → List FDefCore
  | .functionDef (.mk n a r dec body ln) => FDefCore.mk n a r dec body ln :: stmtsDefs body
  | .asyncFunctionDef (.mk _ _ _ _ body _) => stmtsDefs body
  | .classDef _ _ body _ => stmtsDefs body
  | .importStmt _ _ => []
  | .importFrom _ _ _ => []
  | .assign _ _ _ => []
  | .ret _ => []
  | .exprStmt _ => []
  | .passStmt => []
  | .ifStmt _ b e => stmtsDefs b ++ stmtsDefs e
  | .whileStmt _ b e => stmtsDefs b ++ stmtsDefs e
  | .forStmt _ _ b e => stmtsDefs b ++ stmtsDefs e
  | .asyncForStmt _ _ b e => stmtsDefs b ++ stmtsDefs e
  | .withStmt _ b => stmtsDefs b
  | .asyncWithStmt _ b => stmtsDefs b
  | .tryStmt b hs o f => stmtsDefs b ++ handlersDefs hs ++ stmtsDefs o ++ stmtsDefs f

def stmtsDefs : List Stmt → List FDefCore
  | [] => []
  | s :: ss => stmtDefs s ++ stmtsDefs ss

def handlersDefs : List (List Stmt) → List FDefCore
  | [] => []
  | h :: hs => stmtsDefs h ++ handlersDefs hs
end

/-- All synchronous function-definition nodes of a module. -/
def moduleDefs (m : Module) : List FDefCore := stmtsDefs m.body

/-- Every function record held by the visitor state originates, as a value,
from a definition node in `D`. -/
def RecFrom (setList : List String → List String) (D : List FDefCore)
    (st : VState) : Prop :=
  (∀ fi ∈ st.functions, ∃ d ∈ D, fi = mkFuncInfo setList d) ∧
  (∀ ci ∈ st.classes, ∀ fi ∈ ci.methods, ∃ d ∈ D, fi = mkFuncInfo setList d)

/-- First-occurrence deduplication of a plain occurrence list — the order the
claim C4 asserts for `calls_made`/`data_operations`. -/
def firstOccurrenceOrder (l : List String) : List String := firstOccDedup l

/-! ## Concrete inputs used by counterexamples and witnesses -/

/-- One top-level `async with` block and nothing else. -/
def c2Module : Module := ⟨[Stmt.asyncWithStmt [] [Stmt.passStmt]]⟩

/-- `def f():` then `    x = 1` — a simple-name assignment inside the body of
a top-level function. -/
def c5Module : Module :=
  ⟨[Stmt.functionDef
      (FDefCore.mk "f" [] none [] [Stmt.assign [Expr.name "x"] Expr.constOther 2] 1)]⟩

/-- `def g():` whose body calls `b()` and then `a()`. -/
def c4Def : FDefCore :=
  FDefCore.mk "g" [] none []
    [ Stmt.exprStmt (Expr.call (Expr.name "b") [])
    , Stmt.exprStmt (Expr.call (Expr.name "a") []) ] 1

def c4Module : Module := ⟨[Stmt.functionDef c4Def]⟩

/-- Two empty lines, then `query = "SELECT id FROM users"` on line 3. -/
def c6Content : String := "\n\nquery = \"SELECT id FROM users\""

/-- `def m(self): pass` — the single method of the C3 witness class. -/
def c3Def : FDefCore := FDefCore.mk "m" ["self"] none [] [Stmt.passStmt] 2

/-- `def h(): pass` at module scope — the C10 witness module. -/
def c10Def : FDefCore := FDefCore.mk "h" [] none [] [Stmt.passStmt] 1

def c10Module : Module := ⟨[Stmt.functionDef c10Def]⟩

/-! ## Lemmas: Python set semantics instances -/

theorem mem_firstOccAux (a : String) :
    ∀ (l seen : List String), a ∈ firstOccAux seen l ↔ (a ∈ l ∧ a ∉ seen)
  | [], seen => by simp [firstOccAux]
  | x :: t, seen => by
      by_cases hx : x ∈ seen
      · rw [firstOccAux, if_pos hx, mem_firstOccAux a t seen]
        constructor
        · rintro ⟨h1, h2⟩
          exact ⟨List.mem_cons_of_mem x h1, h2⟩
        · rintro ⟨h1, h2⟩
          rcases List.mem_cons.1 h1 with rfl | h1
          · exact absurd hx h2
          · exact ⟨h1, h2⟩
      · rw [firstOccAux, if_neg hx]
        rw [List.mem_cons, mem_firstOccAux a t (x :: seen)]
        constructor
        · rintro (rfl | ⟨h1, h2⟩)
          · exact ⟨List.mem_cons_self a t, hx⟩
          · refine ⟨List.mem_cons_of_mem x h1, fun hc => h2 (List.mem_cons_of_mem x hc)⟩
        · rintro ⟨h1, h2⟩
          rcases List.mem_cons.1 h1 with rfl | h1
          · exact Or.inl rfl
          · by_cases hax : a = x
            · exact Or.inl hax
            · exact Or.inr ⟨h1, by simp [List.mem_cons, hax, h2]⟩

theorem nodup_firstOccAux :
    ∀ (l seen : List String), (firstOccAux seen l).Nodup
  | [], seen => by simp [firstOccAux]
  | x :: t, seen => by
      by_cases hx : x ∈ seen
      · rw [firstOccAux, if_pos hx]
        exact nodup_firstOccAux t seen
      · rw [firstOccAux, if_neg hx]
        refine List.Nodup.cons ?_ (nodup_firstOccAux t (x :: seen))
        intro hmem
        have := (mem_firstOccAux x t (x :: seen)).1 hmem
        simp at this

theorem setListOK_firstOccDedup : SetListOK firstOccDedup := by
  intro xs
  refine ⟨nodup_firstOccAux xs [], fun a => ?_⟩
  rw [firstOccDedup, mem_firstOccAux a xs []]
  simp

theorem setListOK_revOccDedup : SetListOK revOccDedup := by
  intro xs
  obtain ⟨h1, h2⟩ := setListOK_firstOccDedup xs
  refine ⟨by simpa [revOccDedup] using h1, fun a => ?_⟩
  rw [revOccDedup, List.mem_reverse]
  exact h2 a

/-! ## Lemmas: field effects of the leaf visitors -/

theorem visit_Assign_fields (st : VState) (targets : List Expr) (v : Expr) (ln : Nat) :
    (visit_Assign st targets v ln).functions = st.functions ∧
    (visit_Assign st targets v ln).classes = st.classes ∧
    (visit_Assign st targets v ln).imports = st.imports ∧
    (visit_Assign st targets v ln).current_class = st.current_class := by
  obtain ⟨fs, cs, is, gs, dos, cc⟩ := st
  unfold visit_Assign
  refine ⟨?_, ?_, ?_, ?_⟩ <;>
    cases cc <;> cases v <;> (repeat' split) <;>
    simp_all [apply_ite VState.functions, apply_ite VState.classes,
              apply_ite VState.imports, apply_ite VState.current_class]

theorem visit_Import_fields (st : VState) (aliases : List ImportAlias) (ln : Nat) :
    (visit_Import st aliases ln).functions = st.functions ∧
    (visit_Import st aliases ln).classes = st.classes ∧
    (visit_Import st aliases ln).current_class = st.current_class := by
  unfold visit_Import
  exact ⟨rfl, rfl, rfl⟩

theorem visit_ImportFrom_fields (st : VState) (mo : Option String)
    (aliases : List ImportAlias) (ln : Nat) :
    (visit_ImportFrom st mo aliases ln).functions = st.functions ∧
    (visit_ImportFrom st mo aliases ln).classes = st.classes ∧
    (visit_ImportFrom st mo aliases ln).current_class = st.current_class := by
  unfold visit_ImportFrom
  cases mo <;> exact ⟨rfl, rfl, rfl⟩

/-! ## Lemmas: visiting statement sequences -/

theorem visitStmts_append (f : List String → List String) (st : VState)
    (l1 l2 : List Stmt) :
    visitStmts f st (l1 ++ l2) = visitStmts f (visitStmts f st l1) l2 := by
  induction l1 generalizing st with
  | nil => rfl
  | cons s ss ih => simpa [visitStmts] using ih (visitStmt f st s)

/-! ## Lemmas: cyclomatic complexity as a node count -/

mutual
theorem exprCyclo_count : ∀ e : Expr,
    exprCyclo e = (exprKinds e).countP codeDecision
  | .name s => by simp [exprCyclo, exprKinds, List.countP_cons, codeDecision]
  | .attr v a => by
      simp [exprCyclo, exprKinds, List.countP_cons, codeDecision, exprCyclo_count v]
  | .call fn args => by
      simp [exprCyclo, exprKinds, List.countP_cons, List.countP_append, codeDecision,
            exprCyclo_count fn, exprListCyclo_count args]
  | .strLit s => by simp [exprCyclo, exprKinds, List.countP_cons, codeDecision]
  | .constOther => by simp [exprCyclo, exprKinds, List.countP_cons, codeDecision]
  | .listComp subs => by
      simp [exprCyclo, exprKinds, List.countP_cons, codeDecision,
            exprListCyclo_count subs]
      omega
  | .setComp subs => by
      simp [exprCyclo, exprKinds, List.countP_cons, codeDecision,
            exprListCyclo_count subs]
      omega
  | .dictComp subs => by
      simp [exprCyclo, exprKinds, List.countP_cons, codeDecision,
            exprListCyclo_count subs]
      omega
  | .generatorExp subs => by
      simp [exprCyclo, exprKinds, List.countP_cons, codeDecision,
            exprListCyclo_count subs]
      omega

theorem exprListCyclo_count : ∀ es : List Expr,
    exprListCyclo es = (exprListKinds es).countP codeDecision
  | [] => by simp [exprListCyclo, exprListKinds]
  | e :: es => by
      simp [exprListCyclo, exprListKinds, List.countP_append,
            exprCyclo_count e, exprListCyclo_count es]
end

theorem optExprCyclo_count (e : Option Expr) :
    optExprCyclo e = (optExprKinds e).countP codeDecision := by
  cases e with
  | none => simp [optExprCyclo, optExprKinds]
  | some e => simpa [optExprCyclo, optExprKinds] using exprCyclo_count e

mutual
theorem stmtCyclo_count : ∀ s : Stmt,
    stmtCyclo s = (stmtKinds s).countP codeDecision
  | .functionDef d => by
      simp [stmtCyclo, stmtKinds, List.countP_cons, codeDecision, fdefCyclo_count d]
  | .asyncFunctionDef d => by
      simp [stmtCyclo, stmtKinds, List.countP_cons, codeDecision, fdefCyclo_count d]
  | .classDef n bases body ln => by
      simp [stmtCyclo, stmtKinds, List.countP_cons, List.countP_append, codeDecision,
            exprListCyclo_count bases, stmtListCyclo_count body]
  | .importStmt aliases ln => by simp [stmtCyclo, stmtKinds, List.countP_cons, codeDecision]
  | .importFrom mo aliases ln => by
      simp [stmtCyclo, stmtKinds, List.countP_cons, codeDecision]
  | .assign targets v ln => by
      simp [stmtCyclo, stmtKinds, List.countP_cons, List.countP_append, codeDecision,
            exprListCyclo_count targets, exprCyclo_count v]
  | .ret e => by
      simp [stmtCyclo, stmtKinds, List.countP_cons, codeDecision, optExprCyclo_count e]
  | .exprStmt e => by
      simp [stmtCyclo, stmtKinds, List.countP_cons, codeDecision, exprCyclo_count e]
  | .passStmt => by simp [stmtCyclo, stmtKinds, List.countP_cons, codeDecision]
  | .ifStmt t b e => by
      simp [stmtCyclo, stmtKinds, List.countP_cons, List.countP_append, codeDecision,
            exprCyclo_count t, stmtListCyclo_count b, stmtListCyclo_count e]
      omega
  | .whileStmt t b e => by
      simp [stmtCyclo, stmtKinds, List.countP_cons, List.countP_append, codeDecision,
            exprCyclo_count t, stmtListCyclo_count b, stmtListCyclo_count e]
      omega
  | .forStmt tg it b e => by
      simp [stmtCyclo, stmtKinds, List.countP_cons, List.countP_append, codeDecision,
            exprCyclo_count tg, exprCyclo_count it, stmtListCyclo_count b,
            stmtListCyclo_count e]
      omega
  | .asyncForStmt tg it b e => by
      simp [stmtCyclo, stmtKinds, List.countP_cons, List.countP_append, codeDecision,
            exprCyclo_count tg, exprCyclo_count it, stmtListCyclo_count b,
            stmtListCyclo_count e]
      omega
  | .withStmt items b => by
      simp [stmtCyclo, stmtKinds, List.countP_cons, List.countP_append, codeDecision,
            exprListCyclo_count items, stmtListCyclo_count b]
      omega
  | .asyncWithStmt items b => by
      simp [stmtCyclo, stmtKinds, List.countP_cons, List.countP_append, codeDecision,
            exprListCyclo_count items, stmtListCyclo_count b]
  | .tryStmt b hs o fin => by
      simp [stmtCyclo, stmtKinds, List.countP_cons, List.countP_append, codeDecision,
            stmtListCyclo_count b, handlerCyclo_count hs, stmtListCyclo_count o,
            stmtListCyclo_count fin]
      omega

theorem fdefCyclo_count : ∀ d : FDefCore,
    fdefCyclo d = (fdefChildKinds d).countP codeDecision
  | .mk n a r dec body ln => by
      simp [fdefCyclo, fdefChildKinds, List.countP_append, exprListCyclo_count dec,
            optExprCyclo_count r, stmtListCyclo_count body]
      omega

theorem stmtListCyclo_count : ∀ ss : List Stmt,
    stmtListCyclo ss = (stmtListKinds ss).countP codeDecision
  | [] => by simp [stmtListCyclo, stmtListKinds]
  | s :: ss => by
      simp [stmtListCyclo, stmtListKinds, List.countP_append, stmtCyclo_count s,
            stmtListCyclo_count ss]

theorem handlerCyclo_count : ∀ hs : List (List Stmt),
    handlerCyclo hs = (handlerKinds hs).countP codeDecision
  | [] => by simp [handlerCyclo, handlerKinds]
  | h :: hs => by
      simp [handlerCyclo, handlerKinds, List.countP_cons, List.countP_append, codeDecision,
            stmtListCyclo_count h, handlerCyclo_count hs]
      omega
end

/-! ## Lemmas: the traversal never changes the enclosing class context -/

mutual
theorem cc_visitStmts (f : List String → List String) (st : VState) :
    ∀ ss : List Stmt, (visitStmts f st ss).current_class = st.current_class
  | [] => rfl
  | s :: ss => by
      simp only [visitStmts]
      rw [cc_visitStmts f (visitStmt f st s) ss, cc_visitStmt f st s]

theorem cc_visitStmt (f : List String → List String) (st : VState) :
    ∀ s : Stmt, (visitStmt f st s).current_class = st.current_class
  | .functionDef d => cc_visitFDef f st d
  | .asyncFunctionDef (.mk _ _ _ _ body _) => by
      simp only [visitStmt]
      exact cc_visitStmts f st body
  | .classDef n bases body ln => by
      simp only [visitStmt]
  | .importStmt aliases ln => (visit_Import_fields st aliases ln).2.2
  | .importFrom mo aliases ln => (visit_ImportFrom_fields st mo aliases ln).2.2
  | .assign targets v ln => (visit_Assign_fields st targets v ln).2.2.2
  | .ret e => rfl
  | .exprStmt e => rfl
  | .passStmt => rfl
  | .ifStmt t b e => by
      simp only [visitStmt]
      rw [cc_visitStmts, cc_visitStmts]
  | .whileStmt t b e => by
      simp only [visitStmt]
      rw [cc_visitStmts, cc_visitStmts]
  | .forStmt tg it b e => by
      simp only [visitStmt]
      rw [cc_visitStmts, cc_visitStmts]
  | .asyncForStmt tg it b e => by
      simp only [visitStmt]
      rw [cc_visitStmts, cc_visitStmts]
  | .withStmt items b => by
      simp only [visitStmt]
      rw [cc_visitStmts]
  | .asyncWithStmt items b => by
      simp only [visitStmt]
      rw [cc_visitStmts]
  | .tryStmt b hs o fin => by
      simp only [visitStmt]
      rw [cc_visitStmts, cc_visitStmts, cc_visitHandlers, cc_visitStmts]

theorem cc_visitFDef (f : List String → List String) (st : VState) :
    ∀ d : FDefCore, ((visitFDef f st d).1).current_class = st.current_class
  | .mk n a r dec body ln => by
      simp only [visitFDef]
      rw [cc_visitStmts]
      split <;> rfl

theorem cc_visitHandlers (f : List String → List String) (st : VState) :
    ∀ hs : List (List Stmt), (visitHandlers f st hs).current_class = st.current_class
  | [] => rfl
  | h :: hs => by
      simp only [visitHandlers]
      rw [cc_visitHandlers f (visitStmts f st h) hs, cc_visitStmts]
end

/-! ## Lemmas: no function record is appended while inside a class -/

mutual
theorem fn_visitStmts (f : List String → List String) (st : VState) (c : String)
    (h : st.current_class = some c) :
    ∀ ss : List Stmt, (visitStmts f st ss).functions = st.functions
  | [] => rfl
  | s :: ss => by
      simp only [visitStmts]
      rw [fn_visitStmts f (visitStmt f st s) c (by rw [cc_visitStmt]; exact h) ss,
          fn_visitStmt f st c h s]

theorem fn_visitStmt (f : List String → List String) (st : VState) (c : String)
    (h : st.current_class = some c) :
    ∀ s : Stmt, (visitStmt f st s).functions = st.functions
  | .functionDef d => fn_visitFDef f st c h d
  | .asyncFunctionDef (.mk _ _ _ _ body _) => by
      simp only [visitStmt]
      exact fn_visitStmts f st c h body
  | .classDef n bases body ln => by
      simp only [visitStmt]
      exact fn_classBody f { st with current_class := some n } n rfl body
  | .importStmt aliases ln => (visit_Import_fields st aliases ln).1
  | .importFrom mo aliases ln => (visit_ImportFrom_fields st mo aliases ln).1
  | .assign targets v ln => (visit_Assign_fields st targets v ln).1
  | .ret e => rfl
  | .exprStmt e => rfl
  | .passStmt => rfl
  | .ifStmt t b e => by
      simp only [visitStmt]
      rw [fn_visitStmts f _ c (by rw [cc_visitStmts]; exact h) e,
          fn_visitStmts f st c h b]
  | .whileStmt t b e => by
      simp only [visitStmt]
      rw [fn_visitStmts f _ c (by rw [cc_visitStmts]; exact h) e,
          fn_visitStmts f st c h b]
  | .forStmt tg it b e => by
      simp only [visitStmt]
      rw [fn_visitStmts f _ c (by rw [cc_visitStmts]; exact h) e,
          fn_visitStmts f st c h b]
  | .asyncForStmt tg it b e => by
      simp only [visitStmt]
      rw [fn_visitStmts f _ c (by rw [cc_visitStmts]; exact h) e,
          fn_visitStmts f st c h b]
  | .withStmt items b => by
      simp only [visitStmt]
      exact fn_visitStmts f st c h b
  | .asyncWithStmt items b => by
      simp only [visitStmt]
      exact fn_visitStmts f st c h b
  | .tryStmt b hs o fin => by
      simp only [visitStmt]
      rw [fn_visitStmts f _ c
            (by rw [cc_visitStmts, cc_visitHandlers, cc_visitStmts]; exact h) fin,
          fn_visitStmts f _ c (by rw [cc_visitHandlers, cc_visitStmts]; exact h) o,
          fn_visitHandlers f _ c (by rw [cc_visitStmts]; exact h) hs,
          fn_visitStmts f st c h b]

theorem fn_visitFDef (f : List String → List String) (st : VState) (c : String)
    (h : st.current_class = some c) :
    ∀ d : FDefCore, ((visitFDef f st d).1).functions = st.functions
  | .mk n a r dec body ln => by
      simp only [visitFDef, h]
      exact fn_visitStmts f st c h body

theorem fn_classBody (f : List String → List String) (st : VState) (c : String)
    (h : st.current_class = some c) :
    ∀ ss : List Stmt, ((classBody f st ss).1).functions = st.functions
  | [] => rfl
  | .functionDef d :: rest => by
      simp only [classBody]
      rw [fn_classBody f (visitFDef f st d).1 c (by rw [cc_visitFDef]; exact h) rest,
          fn_visitFDef f st c h d]
  | .assign targets v ln :: rest => by
      simp only [classBody]
      exact fn_classBody f st c h rest
  | .asyncFunctionDef d :: rest => by
      simp only [classBody]
      exact fn_classBody f st c h rest
  | .classDef n bases body ln :: rest => by
      simp only [classBody]
      exact fn_classBody f st c h rest
  | .importStmt aliases ln :: rest => by
      simp only [classBody]
      exact fn_classBody f st c h rest
  | .importFrom mo aliases ln :: rest => by
      simp only [classBody]
      exact fn_classBody f st c h rest
  | .ret e :: rest => by
      simp only [classBody]
      exact fn_classBody f st c h rest
  | .exprStmt e :: rest => by
      simp only [classBody]
      exact fn_classBody f st c h rest
  | .passStmt :: rest => by
      simp only [classBody]
      exact fn_classBody f st c h rest
  | .ifStmt t b e :: rest => by
      simp only [classBody]
      exact fn_classBody f st c h rest
  | .whileStmt t b e :: rest => by
      simp only [classBody]
      exact fn_classBody f st c h rest
  | .forStmt tg it b e :: rest => by
      simp only [classBody]
      exact fn_classBody f st c h rest
  | .asyncForStmt tg it b e :: rest => by
      simp only [classBody]
      exact fn_classBody f st c h rest
  | .withStmt items b :: rest => by
      simp only [classBody]
      exact fn_classBody f st c h rest
  | .asyncWithStmt items b :: rest => by
      simp only [classBody]
      exact fn_classBody f st c h rest
  | .tryStmt b hs o fin :: rest => by
      simp only [classBody]
      exact fn_classBody f st c h rest

theorem fn_visitHandlers (f : List String → List String) (st : VState) (c : String)
    (h : st.current_class = some c) :
    ∀ hs : List (List Stmt), (visitHandlers f st hs).functions = st.functions
  | [] => rfl
  | hh :: hs => by
      simp only [visitHandlers]
      rw [fn_visitHandlers f _ c (by rw [cc_visitStmts]; exact h) hs,
          fn_visitStmts f st c h hh]
end

/-! ## Lemmas: no class record is appended while visiting class-free code -/

mutual
theorem cl_visitStmts (f : List String → List String) (st : VState) :
    ∀ ss : List Stmt, stmtsClassFree ss = true → (visitStmts f st ss).classes = st.classes
  | [] => fun _ => rfl
  | s :: ss => fun h => by
      rw [stmtsClassFree, Bool.and_eq_true] at h
      simp only [visitStmts]
      rw [cl_visitStmts f (visitStmt f st s) ss h.2, cl_visitStmt f st s h.1]

theorem cl_visitStmt (f : List String → List String) (st : VState) :
    ∀ s : Stmt, stmtClassFree s = true → (visitStmt f st s).classes = st.classes
  | .functionDef (.mk n a r dec body ln) => fun h => by
      rw [stmtClassFree] at h
      exact cl_visitFDef f st (.mk n a r dec body ln) (by rwa [FDefCore.fbody])
  | .asyncFunctionDef (.mk _ _ _ _ body _) => fun h => by
      rw [stmtClassFree] at h
      simp only [visitStmt]
      exact cl_visitStmts f st body h
  | .classDef n bases body ln => fun h => by
      rw [stmtClassFree] at h
      exact absurd h (by simp)
  | .importStmt aliases ln => fun _ => (visit_Import_fields st aliases ln).2.1
  | .importFrom mo aliases ln => fun _ => (visit_ImportFrom_fields st mo aliases ln).2.1
  | .assign targets v ln => fun _ => (visit_Assign_fields st targets v ln).2.1
  | .ret e => fun _ => rfl
  | .exprStmt e => fun _ => rfl
  | .passStmt => fun _ => rfl
  | .ifStmt t b e => fun h => by
      rw [stmtClassFree, Bool.and_eq_true] at h
      simp only [visitStmt]
      rw [cl_visitStmts f _ e h.2, cl_visitStmts f st b h.1]
  | .whileStmt t b e => fun h => by
      rw [stmtClassFree, Bool.and_eq_true] at h
      simp only [visitStmt]
      rw [cl_visitStmts f _ e h.2, cl_visitStmts f st b h.1]
  | .forStmt tg it b e => fun h => by
      rw [stmtClassFree, Bool.and_eq_true] at h
      simp only [visitStmt]
      rw [cl_visitStmts f _ e h.2, cl_visitStmts f st b h.1]
  | .asyncForStmt tg it b e => fun h => by
      rw [stmtClassFree, Bool.and_eq_true] at h
      simp only [visitStmt]
      rw [cl_visitStmts f _ e h.2, cl_visitStmts f st b h.1]
  | .withStmt items b => fun h => by
      rw [stmtClassFree] at h
      simp only [visitStmt]
      exact cl_visitStmts f st b h
  | .asyncWithStmt items b => fun h => by
      rw [stmtClassFree] at h
      simp only [visitStmt]
      exact cl_visitStmts f st b h
  | .tryStmt b hs o fin => fun h => by
      rw [stmtClassFree, Bool.and_eq_true, Bool.and_eq_true, Bool.and_eq_true] at h
      obtain ⟨⟨⟨hb, hh⟩, ho⟩, hf⟩ := h
      simp only [visitStmt]
      rw [cl_visitStmts f _ fin hf, cl_visitStmts f _ o ho,
          cl_visitHandlers f _ hs hh, cl_visitStmts f st b hb]

theorem cl_visitFDef (f : List String → List String) (st : VState) :
    ∀ d : FDefCore, stmtsClassFree d.fbody = true →
      ((visitFDef f st d).1).classes = st.classes
  | .mk n a r dec body ln => fun h => by
      rw [FDefCore.fbody] at h
      simp only [visitFDef]
      rw [cl_visitStmts f _ body h]
      split <;> rfl

theorem cl_visitHandlers (f : List String → List String) (st : VState) :
    ∀ hs : List (List Stmt), handlersClassFree hs = true →
      (visitHandlers f st hs).classes = st.classes
  | [] => fun _ => rfl
  | hh :: hs => fun h => by
      rw [handlersClassFree, Bool.and_eq_true] at h
      simp only [visitHandlers]
      rw [cl_visitHandlers f _ hs h.2, cl_visitStmts f st hh h.1]
end

/-! ## Lemmas: every produced function record originates from a synchronous
function-definition node of the tree -/

theorem RecFrom_of_fields (f : List String → List String) (D : List FDefCore)
    {st st' : VState} (hf : st'.functions = st.functions)
    (hc : st'.classes = st.classes) (h : RecFrom f D st) : RecFrom f D st' := by
  obtain ⟨h1, h2⟩ := h
  exact ⟨fun fi hfi => h1 fi (hf ▸ hfi), fun ci hci => h2 ci (hc ▸ hci)⟩

theorem visitFDef_snd (f : List String → List String) (st : VState) :
    ∀ d : FDefCore, (visitFDef f st d).2 = mkFuncInfo f d
  | .mk n a r dec body ln => rfl

mutual
theorem og_visitStmts (f : List String → List String) (D : List FDefCore) :
    ∀ ss : List Stmt, ∀ st : VState, stmtsDefs ss ⊆ D → RecFrom f D st →
      RecFrom f D (visitStmts f st ss)
  | [] => fun _ _ hst => hst
  | s :: ss => fun st hD hst => by
      rw [stmtsDefs, List.append_subset] at hD
      simp only [visitStmts]
      exact og_visitStmts f D ss _ hD.2 (og_visitStmt f D s st hD.1 hst)

theorem og_visitStmt (f : List String → List String) (D : List FDefCore) :
    ∀ s : Stmt, ∀ st : VState, stmtDefs s ⊆ D → RecFrom f D st →
      RecFrom f D (visitStmt f st s)
  | .functionDef (.mk n a r dec body ln) => fun st hD hst => by
      rw [stmtDefs, List.cons_subset] at hD
      exact og_visitFDef f D (.mk n a r dec body ln) st hD.1 hD.2 hst
  | .asyncFunctionDef (.mk n a r dec body ln) => fun st hD hst => by
      rw [stmtDefs] at hD
      simp only [visitStmt]
      exact og_visitStmts f D body st hD hst
  | .classDef n bases body ln => fun st hD hst => by
      rw [stmtDefs] at hD
      simp only [visitStmt]
      have hst0 : RecFrom f D { st with current_class := some n } :=
        RecFrom_of_fields f D rfl rfl hst
      obtain ⟨hq, hm⟩ := og_classBody f D body { st with current_class := some n } hD hst0
      constructor
      · intro fi hfi
        exact hq.1 fi hfi
      · intro ci hci fi hfi
        rcases List.mem_append.1 hci with hci | hci
        · exact hq.2 ci hci fi hfi
        · rw [List.mem_singleton] at hci
          subst hci
          exact hm fi hfi
  | .importStmt aliases ln => fun st _ hst =>
      RecFrom_of_fields f D (visit_Import_fields st aliases ln).1
        (visit_Import_fields st aliases ln).2.1 hst
  | .importFrom mo aliases ln => fun st _ hst =>
      RecFrom_of_fields f D (visit_ImportFrom_fields st mo aliases ln).1
        (visit_ImportFrom_fields st mo aliases ln).2.1 hst
  | .assign targets v ln => fun st _ hst =>
      RecFrom_of_fields f D (visit_Assign_fields st targets v ln).1
        (visit_Assign_fields st targets v ln).2.1 hst
  | .ret e => fun _ _ hst => hst
  | .exprStmt e => fun _ _ hst => hst
  | .passStmt => fun _ _ hst => hst
  | .ifStmt t b e => fun st hD hst => by
      rw [stmtDefs, List.append_subset] at hD
      simp only [visitStmt]
      exact og_visitStmts f D e _ hD.2 (og_visitStmts f D b st hD.1 hst)
  | .whileStmt t b e => fun st hD hst => by
      rw [stmtDefs, List.append_subset] at hD
      simp only [visitStmt]
      exact og_visitStmts f D e _ hD.2 (og_visitStmts f D b st hD.1 hst)
  | .forStmt tg it b e => fun st hD hst => by
      rw [stmtDefs, List.append_subset] at hD
      simp only [visitStmt]
      exact og_visitStmts f D e _ hD.2 (og_visitStmts f D b st hD.1 hst)
  | .asyncForStmt tg it b e => fun st hD hst => by
      rw [stmtDefs, List.append_subset] at hD
      simp only [visitStmt]
      exact og_visitStmts f D e _ hD.2 (og_visitStmts f D b st hD.1 hst)
  | .withStmt items b => fun st hD hst => by
      rw [stmtDefs] at hD
      simp only [visitStmt]
      exact og_visitStmts f D b st hD hst
  | .asyncWithStmt items b => fun st hD hst => by
      rw [stmtDefs] at hD
      simp only [visitStmt]
      exact og_visitStmts f D b st hD hst
  | .tryStmt b hs o fin => fun st hD hst => by
      rw [stmtDefs, List.append_subset, List.append_subset, List.append_subset] at hD
      simp only [visitStmt]
      exact og_visitStmts f D fin _ hD.2
        (og_visitStmts f D o _ hD.1.2
          (og_visitHandlers f D hs _ hD.1.1.2
            (og_visitStmts f D b st hD.1.1.1 hst)))

theorem og_visitFDef (f : List String → List String) (D : List FDefCore) :
    ∀ d : FDefCore, ∀ st : VState, d ∈ D → stmtsDefs d.fbody ⊆ D → RecFrom f D st →
      RecFrom f D ((visitFDef f st d).1)
  | .mk n a r dec body ln => fun st hd hb hst => by
      rw [FDefCore.fbody] at hb
      simp only [visitFDef]
      refine og_visitStmts f D body _ hb ?_
      rcases hc : st.current_class with _ | c
      · simp only [hc]
        constructor
        · intro fi hfi
          rcases List.mem_append.1 hfi with hfi | hfi
          · exact hst.1 fi hfi
          · rw [List.mem_singleton] at hfi
            exact ⟨.mk n a r dec body ln, hd, hfi⟩
        · intro ci hci fi hfi
          exact hst.2 ci hci fi hfi
      · simp only [hc]
        exact hst

theorem og_classBody (f : List String → List String) (D : List FDefCore) :
    ∀ ss : List Stmt, ∀ st : VState, stmtsDefs ss ⊆ D → RecFrom f D st →
      RecFrom f D ((classBody f st ss).1) ∧
      ∀ fi ∈ (classBody f st ss).2.1, ∃ d ∈ D, fi = mkFuncInfo f d
  | [] => fun st _ hst => by
      refine ⟨hst, ?_⟩
      simp [classBody]
  | .functionDef (.mk n a r dec body ln) :: rest => fun st hD hst => by
      rw [stmtsDefs, stmtDefs, List.append_subset, List.cons_subset] at hD
      obtain ⟨⟨hd, hb⟩, hrest⟩ := hD
      have hp := og_visitFDef f D (.mk n a r dec body ln) st hd
        (by rwa [FDefCore.fbody]) hst
      obtain ⟨hq, hm⟩ :=
        og_classBody f D rest ((visitFDef f st (.mk n a r dec body ln)).1) hrest hp
      simp only [classBody]
      refine ⟨hq, ?_⟩
      intro fi hfi
      rcases List.mem_cons.1 hfi with hfi | hfi
      · subst hfi
        exact ⟨.mk n a r dec body ln, hd,
          visitFDef_snd f st (.mk n a r dec body ln)⟩
      · exact hm fi hfi
  | .assign targets v ln :: rest => fun st hD hst => by
      rw [stmtsDefs, List.append_subset] at hD
      obtain ⟨hq, hm⟩ := og_classBody f D rest st hD.2 hst
      simp only [classBody]
      refine ⟨hq, ?_⟩
      intro fi hfi
      exact hm fi hfi
  | .asyncFunctionDef (.mk n a r dec body ln) :: rest => fun st hD hst => by
      rw [stmtsDefs, List.append_subset] at hD
      simpa only [classBody] using og_classBody f D rest st hD.2 hst
  | .classDef n bases body ln :: rest => fun st hD hst => by
      rw [stmtsDefs, List.append_subset] at hD
      simpa only [classBody] using og_classBody f D rest st hD.2 hst
  | .importStmt aliases ln :: rest => fun st hD hst => by
      rw [stmtsDefs, List.append_subset] at hD
      simpa only [classBody] using og_classBody f D rest st hD.2 hst
  | .importFrom mo aliases ln :: rest => fun st hD hst => by
      rw [stmtsDefs, List.append_subset] at hD
      simpa only [classBody] using og_classBody f D rest st hD.2 hst
  | .ret e :: rest => fun st hD hst => by
      rw [stmtsDefs, List.append_subset] at hD
      simpa only [classBody] using og_classBody f D rest st hD.2 hst
  | .exprStmt e :: rest => fun st hD hst => by
      rw [stmtsDefs, List.append_subset] at hD
      simpa only [classBody] using og_classBody f D rest st hD.2 hst
  | .passStmt :: rest => fun st hD hst => by
      rw [stmtsDefs, List.append_subset] at hD
      simpa only [classBody] using og_classBody f D rest st hD.2 hst
  | .ifStmt t b e :: rest => fun st hD hst => by
      rw [stmtsDefs, List.append_subset] at hD
      simpa only [classBody] using og_classBody f D rest st hD.2 hst
  | .whileStmt t b e :: rest => fun st hD hst => by
      rw [stmtsDefs, List.append_subset] at hD
      simpa only [classBody] using og_classBody f D rest st hD.2 hst
  | .forStmt tg it b e :: rest => fun st hD hst => by
      rw [stmtsDefs, List.append_subset] at hD
      simpa only [classBody] using og_classBody f D rest st hD.2 hst
  | .asyncForStmt tg it b e :: rest => fun st hD hst => by
      rw [stmtsDefs, List.append_subset] at hD
      simpa only [classBody] using og_classBody f D rest st hD.2 hst
  | .withStmt items b :: rest => fun st hD hst => by
      rw [stmtsDefs, List.append_subset] at hD
      simpa only [classBody] using og_classBody f D rest st hD.2 hst
  | .asyncWithStmt items b :: rest => fun st hD hst => by
      rw [stmtsDefs, List.append_subset] at hD
      simpa only [classBody] using og_classBody f D rest st hD.2 hst
  | .tryStmt b hs o fin :: rest => fun st hD hst => by
      rw [stmtsDefs, List.append_subset] at hD
      simpa only [classBody] using og_classBody f D rest st hD.2 hst

theorem og_visitHandlers (f : List String → List String) (D : List FDefCore) :
    ∀ hs : List (List Stmt), ∀ st : VState, handlersDefs hs ⊆ D → RecFrom f D st →
      RecFrom f D (visitHandlers f st hs)
  | [] => fun _ _ hst => hst
  | hh :: hs => fun st hD hst => by
      rw [handlersDefs, List.append_subset] at hD
      simp only [visitHandlers]
      exact og_visitHandlers f D hs _ hD.2 (og_visitStmts f D hh st hD.1 hst)
end

/-- Every function record in the final visitor state — a module-level record
or a method of any produced class record — equals `mkFuncInfo` of some
synchronous `FunctionDef` node of the tree. -/
theorem runVisitor_records_from_defs (f : List String → List String) (m : Module)
    (fi : FunctionInfo)
    (h : fi ∈ (runVisitor f m).functions ∨
         ∃ ci ∈ (runVisitor f m).classes, fi ∈ ci.methods) :
    ∃ d ∈ moduleDefs m, fi = mkFuncInfo f d := by
  have hrec : RecFrom f (moduleDefs m) (runVisitor f m) := by
    refine og_visitStmts f (moduleDefs m) m.body initState ?_ ?_
    · rw [moduleDefs]
      exact List.Subset.refl _
    · constructor
      · intro fi hfi
        simp [initState] at hfi
      · intro ci hci
        simp [initState] at hci
  rcases h with h | ⟨ci, hci, hfi⟩
  · exact hrec.1 fi h
  · exact hrec.2 ci hci fi hfi

/-! ## Lemmas: per-line pattern matching -/

theorem splitOnNl_ne_nil : ∀ cs : List Char, splitOnNl cs ≠ []
  | [] => by simp [splitOnNl]
  | c :: t => by
      rw [splitOnNl]
      split
      · simp
      · split <;> simp

theorem noNl_splitOnNl : ∀ cs : List Char, ∀ l ∈ splitOnNl cs, '\n' ∉ l
  | [] => by simp [splitOnNl]
  | c :: t => by
      intro l hl
      rw [splitOnNl] at hl
      by_cases hc : c = '\n'
      · rw [if_pos hc] at hl
        rcases List.mem_cons.1 hl with rfl | hl
        · simp
        · exact noNl_splitOnNl t l hl
      · rw [if_neg hc] at hl
        rcases hsp : splitOnNl t with _ | ⟨h, r⟩
        · rw [hsp] at hl
          rcases List.mem_cons.1 hl with rfl | hl
          · simp [hc]
            exact fun h1 => hc h1.symm
          · simp at hl
        · rw [hsp] at hl
          rcases List.mem_cons.1 hl with rfl | hl
          · intro hmem
            rcases List.mem_cons.1 hmem with h1 | h1
            · exact hc h1.symm
            · exact noNl_splitOnNl t h (by rw [hsp]; exact List.mem_cons_self _ _) h1
          · exact noNl_splitOnNl t l (by rw [hsp]; exact List.mem_cons_of_mem _ hl)

theorem findallFuel_within : ∀ (pats : List Pat) (fuel : Nat) (s : List Char),
    ∀ m ∈ findallFuel pats fuel s, m <:+: s
  | pats, 0, s => by simp [findallFuel]
  | pats, fuel + 1, [] => by simp [findallFuel]
  | pats, fuel + 1, c :: t => by
      intro m hm
      rw [findallFuel] at hm
      rcases hmp : matchPats pats (c :: t) with _ | n
      · rw [hmp] at hm
        exact (findallFuel_within pats fuel t m hm).trans
          (List.suffix_cons c t).isInfix
      · rcases n with _ | n
        · rw [hmp] at hm
          exact (findallFuel_within pats fuel t m hm).trans
            (List.suffix_cons c t).isInfix
        · rw [hmp] at hm
          rcases List.mem_cons.1 hm with rfl | hm
          · exact (List.take_prefix (n + 1) (c :: t)).isInfix
          · refine (findallFuel_within pats fuel (t.drop n) m hm).trans ?_
            exact ((List.drop_suffix n t).isInfix).trans
              (List.suffix_cons c t).isInfix

theorem findallAux_within (pats : List Pat) (s : List Char) :
    ∀ m ∈ findallAux pats s, m <:+: s :=
  findallFuel_within pats s.length s

theorem stripChars_subset (l : List Char) : stripChars l ⊆ l := by
  intro a ha
  rw [stripChars] at ha
  rw [List.mem_reverse] at ha
  have h1 := (List.dropWhile_sublist (l := (l.dropWhile isWsChar).reverse)
    (p := isWsChar)).subset ha
  rw [List.mem_reverse] at h1
  exact (List.dropWhile_sublist (l := l) (p := isWsChar)).subset h1

theorem mem_extractLines (f : List String → List String) :
    ∀ (lines : List (List Char)) (i : Nat) (q : SQLQuery),
      q ∈ extractLines f i lines →
      ∃ j : Fin lines.length,
        q.line_number = i + j.1 + 1 ∧
        q.context = String.mk (stripChars (lines.get j)) ∧
        ∃ m, (∃ pats ∈ sqlPatterns, m ∈ findallAux pats (lines.get j)) ∧
          q.query = String.mk (stripChars m)
  | [] => by simp [extractLines]
  | line :: rest => fun i q hq => by
      rw [extractLines] at hq
      rcases List.mem_append.1 hq with hq | hq
      · rw [List.mem_flatMap] at hq
        obtain ⟨pats, hpats, hq⟩ := hq
        rw [List.mem_map] at hq
        obtain ⟨m, hm, rfl⟩ := hq
        exact ⟨⟨0, by simp⟩, by simp [mkSQLRecord], by simp [mkSQLRecord, List.get],
          m, ⟨pats, hpats, hm⟩, by simp [mkSQLRecord]⟩
      · obtain ⟨⟨j, hj⟩, h1, h2, m, h3, h4⟩ := mem_extractLines f rest (i + 1) q hq
        refine ⟨⟨j + 1, by simpa using hj⟩, by simp only [Fin.val_mk] at h1 ⊢; omega, ?_, m, ?_, h4⟩
        · simpa using h2
        · simpa using h3

/-! ## The claims -/

/-- C1: for every input text that the external parser rejects, `analyze_file`
returns an `AnalysisResult` whose functions, classes, imports,
global-variable, data-operation, SQL-query and dependency lists are all
empty, and whose `complexity_metrics` field is the single-field error
descriptor carrying the parser's error message.  The embedding of
`analyze_file` is a total function — the `except SyntaxError` branch turns
the parser's rejection into this degraded value instead of propagating an
exception. -/
theorem c1_parse_failure_yields_degraded_result
    (f : List String → List String) (parse : String → Except String Module)
    (fp content e : String) (h : parse content = Except.error e) :
    (analyze_file f parse fp content).functions = [] ∧
    (analyze_file f parse fp content).classes = [] ∧
    (analyze_file f parse fp content).imports = [] ∧
    (analyze_file f parse fp content).global_variables = [] ∧
    (analyze_file f parse fp content).data_operations = [] ∧
    (analyze_file f parse fp content).sql_queries = [] ∧
    (analyze_file f parse fp content).dependencies = [] ∧
    (analyze_file f parse fp content).complexity_metrics
      = MetricsOrError.errorDescriptor e := by
  unfold analyze_file
  rw [h]
  exact ⟨rfl, rfl, rfl, rfl, rfl, rfl, rfl, rfl⟩

/-- Witness for C1 at a concrete rejecting parser and input. -/
theorem c1_witness :
    (analyze_file firstOccDedup (fun _ => Except.error "invalid syntax")
        "f.py" "def (").functions = [] ∧
    (analyze_file firstOccDedup (fun _ => Except.error "invalid syntax")
        "f.py" "def (").complexity_metrics
      = MetricsOrError.errorDescriptor "invalid syntax" := by
  have h := c1_parse_failure_yields_degraded_result firstOccDedup
    (fun _ => Except.error "invalid syntax") "f.py" "def (" "invalid syntax" rfl
  exact ⟨h.1, h.2.2.2.2.2.2.2⟩

/-- C2 counterexample: a tree with exactly one `async with` block.  The
specification's decision list includes the asynchronous resource-scope
block, but the `isinstance` chain of the code tests `ast.With` only, so the
computed complexity is 1 while the claimed value 1 + k is 2. -/
theorem c2_counterexample_async_with :
    calculate_cyclomatic_complexity c2Module ≠
      1 + (moduleKinds c2Module).countP specDecision := by
  decide

/-- C2 (amended): for every syntax tree, the computed cyclomatic complexity
equals 1 plus the number of constructs that are a conditional branch, a loop
(synchronous or asynchronous), an exception handler clause, a *synchronous*
resource-scope block, or a comprehension/generator expression; the
asynchronous resource-scope block is not counted. -/
theorem c2_cyclomatic_counts_code_decisions (m : Module) :
    calculate_cyclomatic_complexity m = 1 + (moduleKinds m).countP codeDecision := by
  rw [calculate_cyclomatic_complexity, moduleKinds, List.countP_cons]
  simp [codeDecision, stmtListCyclo_count m.body]

/-- C3: a file consisting of exactly one class declaration with exactly one
method (and no further class declaration nested in the method body) yields
exactly one `ClassRecord` whose method list has length 1, and a module-level
function list of length 0 — a function declared directly in a class body
never also appears as a top-level record. -/
theorem c3_single_class_single_method (f : List String → List String)
    (cname : String) (bases : List Expr) (ln : Nat) (d : FDefCore)
    (hfree : stmtsClassFree d.fbody = true) :
    ((runVisitor f ⟨[Stmt.classDef cname bases [Stmt.functionDef d] ln]⟩).classes.map
        (fun ci => ci.methods.length) = [1]) ∧
    (runVisitor f ⟨[Stmt.classDef cname bases [Stmt.functionDef d] ln]⟩).functions = [] := by
  have hcl := cl_visitFDef f
    { functions := [], classes := [], imports := [], global_variables := []
    , data_operations := [], current_class := some cname } d hfree
  have hfn := fn_visitFDef f
    { functions := [], classes := [], imports := [], global_variables := []
    , data_operations := [], current_class := some cname } cname rfl d
  simp only [runVisitor, visitStmts, visitStmt, classBody, initState]
  constructor
  · simp [hcl]
  · simp [hfn]

/-- Witness for C3 at a concrete class with one method. -/
theorem c3_witness :
    ((runVisitor firstOccDedup ⟨[Stmt.classDef "C" [] [Stmt.functionDef c3Def] 1]⟩).classes.map
        (fun ci => ci.methods.length) = [1]) ∧
    (runVisitor firstOccDedup ⟨[Stmt.classDef "C" [] [Stmt.functionDef c3Def] 1]⟩).functions
      = [] :=
  c3_single_class_single_method firstOccDedup "C" [] 1 c3Def (by decide)

/-- C4 counterexample: Python guarantees nothing about `list(set(...))`
beyond no-duplicates and membership (`SetListOK`).  `revOccDedup` satisfies
those guarantees, yet under it the record of a body calling `b()` then
`a()` carries `calls_made = ["a", "b"]`, not the first-occurrence insertion
order `["b", "a"]` the claim asserts. -/
theorem c4_counterexample_set_order :
    SetListOK revOccDedup ∧
    ((runVisitor revOccDedup c4Module).functions.map (fun fi => fi.calls_made)
      = [["a", "b"]]) ∧
    firstOccurrenceOrder (collectCalls c4Def) = ["b", "a"] ∧
    (["a", "b"] : List String) ≠ ["b", "a"] :=
  ⟨setListOK_revOccDedup, by decide, by decide, by decide⟩

/-- C4 (amended): for every function record produced under any order
consistent with Python set semantics, `calls_made` and `data_operations`
contain no duplicate entries; the order is unspecified. -/
theorem c4_no_duplicates (f : List String → List String) (hok : SetListOK f)
    (m : Module) (fi : FunctionInfo)
    (h : fi ∈ (runVisitor f m).functions ∨
         ∃ ci ∈ (runVisitor f m).classes, fi ∈ ci.methods) :
    fi.calls_made.Nodup ∧ fi.data_operations.Nodup := by
  obtain ⟨d, hd, rfl⟩ := runVisitor_records_from_defs f m fi h
  exact ⟨(hok (collectCalls d)).1, (hok (collectDataOps d)).1⟩

/-- Witness for C4 at the two-call module under first-occurrence order. -/
theorem c4_witness :
    (mkFuncInfo firstOccDedup c4Def).calls_made.Nodup ∧
    (mkFuncInfo firstOccDedup c4Def).data_operations.Nodup :=
  c4_no_duplicates firstOccDedup setListOK_firstOccDedup c4Module
    (mkFuncInfo firstOccDedup c4Def) (Or.inl (by decide))

/-- C5 evaluated at the failing input `def f():\n    x = 1`:
`visit_FunctionDef` ends with a `generic_visit` that descends into the
function body while `current_class` is still `None`, so `visit_Assign`
records the function-local `x` as a global binding — the claim (and the
source's own "Track global variable assignments" intent) says it must not
be recorded. -/
theorem c5_function_local_assignment_recorded :
    (runVisitor firstOccDedup c5Module).global_variables = ["x"] ∧
    (runVisitor firstOccDedup c5Module).global_variables ≠ [] :=
  ⟨rfl, by decide⟩

/-- C6 counterexample: for an input that is exactly `CREATE TABLE users`,
the verb keyword is unambiguous in the matched text and table extraction
succeeds, yet the produced record's verb is UNKNOWN: the classifier only
inspects DML token types and `CREATE` tokenizes as a DDL keyword. -/
theorem c6_counterexample_create_unknown :
    ((extract_sql_queries firstOccDedup "CREATE TABLE users").map
        (fun q => (q.query, q.query_type))
      = [("CREATE TABLE users", "UNKNOWN")]) ∧
    "UNKNOWN" ≠ "CREATE" :=
  ⟨by decide, by decide⟩

/-- C6 (amended): for the input with `query = "SELECT id FROM users"` on
line 3, the analysis produces exactly one query record, with verb SELECT,
line number 3, and a table set containing `users`; the verb is the first
DML token of the shallow parse, so it is never UNKNOWN for a successfully
parsed SELECT/INSERT/UPDATE/DELETE match, while CREATE/DROP matches (DDL)
and failed parses classify as UNKNOWN. -/
theorem c6_select_scenario (f : List String → List String) (hok : SetListOK f) :
    ((extract_sql_queries f c6Content).map
        (fun q => (q.query, q.query_type, q.line_number, q.context))
      = [("SELECT id FROM users", "SELECT", 3, "query = \"SELECT id FROM users\"")]) ∧
    ∀ q ∈ extract_sql_queries f c6Content, "users" ∈ q.tables := by
  have hE : extract_sql_queries f c6Content =
      [{ query := "SELECT id FROM users"
       , query_type := "SELECT"
       , tables := f ["id", "users"]
       , columns := f []
       , line_number := 3
       , context := "query = \"SELECT id FROM users\"" }] := rfl
  refine ⟨by rw [hE]; rfl, ?_⟩
  intro q hq
  rw [hE, List.mem_singleton] at hq
  subst hq
  exact ((hok ["id", "users"]).2 "users").mpr (by simp)

/-- Witness for C6 under first-occurrence set order. -/
theorem c6_witness :
    (extract_sql_queries firstOccDedup c6Content).map
        (fun q => (q.query, q.query_type, q.line_number, q.context))
      = [("SELECT id FROM users", "SELECT", 3, "query = \"SELECT id FROM users\"")] :=
  (c6_select_scenario firstOccDedup setListOK_firstOccDedup).1

/-- C7 counterexample: for the single-line input ` SELECT a FROM t` (note
the leading space), the produced record's context is the *stripped* line
`SELECT a FROM t`, not the full original line the claim asserts
(`context=line.strip()` at line 143 of the source). -/
theorem c7_counterexample_context_stripped :
    ((extract_sql_queries firstOccDedup " SELECT a FROM t").map (fun q => q.context)
      = ["SELECT a FROM t"]) ∧
    splitOnNl (" SELECT a FROM t" : String).toList = [(" SELECT a FROM t" : String).toList] ∧
    ("SELECT a FROM t" : String) ≠ " SELECT a FROM t" :=
  ⟨by decide, by decide, by decide⟩

/-- C7 (amended): matching is performed one physical line at a time — every
produced record carries the 1-based index of the line it matched on, the
matched text never spans a line break, and the context is the original line
stripped of leading and trailing whitespace. -/
theorem c7_per_line_matching (f : List String → List String) (content : String)
    (q : SQLQuery) (hq : q ∈ extract_sql_queries f content) :
    ∃ j : Fin (splitOnNl content.toList).length,
      q.line_number = j.1 + 1 ∧
      q.context = String.mk (stripChars ((splitOnNl content.toList).get j)) ∧
      '\n' ∉ q.query.toList := by
  rw [extract_sql_queries] at hq
  obtain ⟨j, h1, h2, m, ⟨pats, hpats, hm⟩, h4⟩ :=
    mem_extractLines f (splitOnNl content.toList) 0 q hq
  refine ⟨j, by simpa using h1, h2, ?_⟩
  have hline : '\n' ∉ (splitOnNl content.toList).get j :=
    noNl_splitOnNl content.toList _ (List.get_mem _ j.1 j.2)
  have hsub := (findallAux_within pats _ m hm).subset
  rw [h4]
  intro hc
  exact hline (hsub (stripChars_subset m hc))

/-- Witness for C7 at the single-line input `SELECT a FROM t`. -/
theorem c7_witness :
    ∃ j : Fin (splitOnNl ("SELECT a FROM t" : String).toList).length,
      (⟨"SELECT a FROM t", "SELECT", ["a", "t"], [], 1, "SELECT a FROM t"⟩ : SQLQuery).line_number
        = j.1 + 1 ∧
      (⟨"SELECT a FROM t", "SELECT", ["a", "t"], [], 1, "SELECT a FROM t"⟩ : SQLQuery).context
        = String.mk (stripChars ((splitOnNl ("SELECT a FROM t" : String).toList).get j)) ∧
      '\n' ∉ (⟨"SELECT a FROM t", "SELECT", ["a", "t"], [], 1,
          "SELECT a FROM t"⟩ : SQLQuery).query.toList :=
  c7_per_line_matching firstOccDedup "SELECT a FROM t" _ (by decide)

/-- C8: a failure in the classifier's try body (a candidate that the shallow
parse rejects) never propagates to the caller: the handler substitutes verb
UNKNOWN with empty table and column sets, and — the classifier being a total
function — the surrounding extraction continues. -/
theorem c8_classifier_failure_returns_unknown (f : List String → List String)
    (q e : String) (h : analyze_sql_query_try f q = Except.error e) :
    analyze_sql_query f q = ⟨"UNKNOWN", [], []⟩ := by
  simp [analyze_sql_query, h]

/-- Witness for C8 at the empty candidate string, on which the `[0]` of the
source raises. -/
theorem c8_witness :
    analyze_sql_query firstOccDedup "" = ⟨"UNKNOWN", [], []⟩ :=
  c8_classifier_failure_returns_unknown firstOccDedup ""
    "IndexError: list index out of range" rfl

/-- C9: a from-import whose source module is absent (`from . import name`)
emits no import record at all: inserting such a statement anywhere at module
level changes neither the imports list nor the dependency list. -/
theorem c9_relative_import_emits_nothing (f : List String → List String)
    (pre post : List Stmt) (aliases : List ImportAlias) (ln : Nat) :
    ((runVisitor f ⟨pre ++ Stmt.importFrom none aliases ln :: post⟩).imports
      = (runVisitor f ⟨pre ++ post⟩).imports) ∧
    (identify_dependencies f
        (runVisitor f ⟨pre ++ Stmt.importFrom none aliases ln :: post⟩).imports
      = identify_dependencies f (runVisitor f ⟨pre ++ post⟩).imports) := by
  have hstate : runVisitor f ⟨pre ++ Stmt.importFrom none aliases ln :: post⟩
      = runVisitor f ⟨pre ++ post⟩ := by
    show visitStmts f initState (pre ++ Stmt.importFrom none aliases ln :: post)
      = visitStmts f initState (pre ++ post)
    rw [visitStmts_append, visitStmts_append]
    rfl
  exact ⟨by rw [hstate], by rw [hstate]⟩

/-- C10: no record is ever produced for an `async def`: every function
record — module-level or method — equals `mkFuncInfo` of some *synchronous*
definition node collected by `moduleDefs` (which never collects an
`AsyncFunctionDef` node, mirroring that the visitor has no method for it and
the class-body loop tests `isinstance(child, ast.FunctionDef)` only);
moreover a module consisting of one async definition produces no record and
a class whose body is one async definition has an empty method list. -/
theorem c10_async_def_never_recorded (f : List String → List String) (m : Module)
    (fi : FunctionInfo)
    (h : fi ∈ (runVisitor f m).functions ∨
         ∃ ci ∈ (runVisitor f m).classes, fi ∈ ci.methods) :
    (∃ d ∈ moduleDefs m, fi = mkFuncInfo f d) ∧
    (runVisitor f ⟨[Stmt.asyncFunctionDef
        (FDefCore.mk "af" [] none [] [Stmt.passStmt] 1)]⟩).functions = [] ∧
    ((runVisitor f ⟨[Stmt.classDef "C" [] [Stmt.asyncFunctionDef
        (FDefCore.mk "af" [] none [] [Stmt.passStmt] 2)] 1]⟩).classes.map
      (fun ci => ci.methods) = [[]]) :=
  ⟨runVisitor_records_from_defs f m fi h, rfl, rfl⟩

/-- Witness for C10 at a module with one synchronous definition. -/
theorem c10_witness :
    (∃ d ∈ moduleDefs c10Module, mkFuncInfo firstOccDedup c10Def = mkFuncInfo firstOccDedup d) ∧
    (runVisitor firstOccDedup ⟨[Stmt.asyncFunctionDef
        (FDefCore.mk "af" [] none [] [Stmt.passStmt] 1)]⟩).functions = [] ∧
    ((runVisitor firstOccDedup ⟨[Stmt.classDef "C" [] [Stmt.asyncFunctionDef
        (FDefCore.mk "af" [] none [] [Stmt.passStmt] 2)] 1]⟩).classes.map
      (fun ci => ci.methods) = [[]]) :=
  c10_async_def_never_recorded firstOccDedup c10Module
    (mkFuncInfo firstOccDedup c10Def) (Or.inl (by decide))

end ETLex
